import Mathlib

/-!
Shallow embedding of the TAO stats acquisition and normalization pipeline
implemented in src/bittensor/bittensor_stats/tao_stats_visualizer.py and
its near-duplicate src/bittensor/tao_stats_visualizer.py, together with
proofs about the embedded operations.

Modelling choices, used consistently below:
- calendar dates (ISO date strings in the Python code) are naturals; the
  lexicographic order on equal-format ISO date strings used by the code
  coincides with chronological order, hence with the order on naturals;
- prices (Python floats) are exact rationals;
- raw statistics records fetched from the API are opaque naturals;
- Python dicts keyed by date are association lists, looked up by first
  matching key (dict keys are unique, which theorems assume as Nodup
  hypotheses where the value read matters);
- exceptional control flow is made explicit: a transport answer is a
  constructor of an inductive type, and functions that the code
  guarantees cannot raise are total Lean functions.
-/

/-- A price map: association list from date to price, modelling the
Python dict from ISO date string to float price. -/
abbrev PriceMap := List (Nat × Rat)

/-- The keys of a price map (Python dict keys, in insertion order). -/
def keysOf (m : PriceMap) : List Nat := m.map Prod.fst

/-- Embedding of get_price_for_date (bittensor_stats/tao_stats_visualizer.py,
lines 539 to 554), which is also exactly the inline price-resolution logic of
process_data (lines 305 to 319): return the exact dict hit if the target date
is a key; otherwise scan the sorted keys and return the value of the first key
at or after the target; otherwise the value of the last sorted key; otherwise
no price. -/
def get_price_for_date (m : PriceMap) (d : Nat) : Option Rat :=
  match m.lookup d with
  | some p => some p
  | none =>
    match (List.insertionSort (· ≤ ·) (keysOf m)).find? (fun k => d ≤ k) with
    | some k => m.lookup k
    | none =>
      match (List.insertionSort (· ≤ ·) (keysOf m)).getLast? with
      | some k => m.lookup k
      | none => none

/-! ## StatsFetcher: fetch_all_data

The paginated fetch loop of both source files (bittensor_stats variant
lines 35 to 101, root variant lines 33 to 99; the two bodies are
character-for-character identical).  The HTTP transport is modelled as a
deterministic function from (page, attempt) to a response; the loop is
embedded with an explicit fuel bound on the number of pages visited, and
it records its observable side effects (requests issued, sleeps) as an
event trace. -/

/-- Pagination metadata of a response body; total_pages is none when the
upstream omits that key (read by pagination.get with default 1). -/
structure PaginationMeta where
  total_pages : Option Nat
  deriving DecidableEq

/-- Parsed JSON body of a 2xx response: data is none when the data field
is absent, and pagination is none when no pagination object is present. -/
structure ResponseBody where
  data : Option (List Nat)
  pagination : Option PaginationMeta
  deriving DecidableEq

/-- The outcome of one HTTP request: a 429 status, any other transport or
HTTP error (everything requests raises as a RequestException, including
raise_for_status), or a success with a parsed body. -/
inductive ApiResponse where
  | rateLimited
  | transportError
  | ok (body : ResponseBody)
  deriving DecidableEq

/-- A deterministic transport: the response the upstream gives to the
request for a given page at a given attempt number within that page. -/
abbrev Transport := Nat → Nat → ApiResponse

/-- Observable events of the fetch loop: an issued request, a backoff
sleep of a given number of seconds, and the fixed 3-second delay between
successful pages. -/
inductive Event where
  | request (page attempt : Nat)
  | wait (seconds : Nat)
  | pageDelay
  deriving DecidableEq

/-- MAX_RETRIES from config.py. -/
def MAX_RETRIES : Nat := 3

/-- The effective total page count of a body:
data.get with key pagination and an empty-dict default, then .get with key
total_pages and default 1. -/
def effTotalPages (b : ResponseBody) : Nat :=
  match b.pagination with
  | none => 1
  | some pg => pg.total_pages.getD 1

/-- How the inner retry loop for one page ends. -/
inductive PageOutcome where
  | done (acc : List Nat)
  | next (acc : List Nat)
  | skip
  deriving DecidableEq

/-- Embedding of the inner retry loop of fetch_all_data (lines 52 to 95
of the bittensor_stats variant).  rc is retry_count and fuel is
max_retries minus rc, so the loop guard retry_count less than max_retries
is exactly fuel being positive.  done acc means the Python function
returned all_data from inside the loop (end of stream, last page reached,
or non-429 retries exhausted); next acc is the break on success; skip is
the fall-through that happens when repeated 429 responses drive
retry_count up to max_retries, after which control reaches the page
increment. -/
def attemptLoop (t : Transport) (page : Nat) (acc : List Nat) :
    Nat → Nat → PageOutcome × List Event
  | _, 0 => (.skip, [])
  | rc, fuel + 1 =>
    match t page rc with
    | .rateLimited =>
      let r := attemptLoop t page acc (rc + 1) fuel
      (r.1, .request page rc :: .wait (5 + 2 ^ rc) :: r.2)
    | .transportError =>
      if fuel = 0 then (.done acc, [.request page rc])
      else
        let r := attemptLoop t page acc (rc + 1) fuel
        (r.1, .request page rc :: .wait (2 ^ (rc + 1)) :: r.2)
    | .ok b =>
      match b.data with
      | none => (.done acc, [.request page rc])
      | some [] => (.done acc, [.request page rc])
      | some recs =>
        if page ≥ effTotalPages b then (.done (acc ++ recs), [.request page rc])
        else (.next (acc ++ recs), [.request page rc])

/-- Embedding of the outer page loop of fetch_all_data, with fuel
bounding the number of pages visited; a none result means the while-true
loop was still running when the fuel ran out. -/
def fetchPages (t : Transport) : Nat → Nat → List Nat → Option (List Nat) × List Event
  | 0, _, _ => (none, [])
  | fuel + 1, page, acc =>
    let r := attemptLoop t page acc 0 MAX_RETRIES
    match r.1 with
    | .done acc2 => (some acc2, r.2)
    | .next acc2 =>
      let s := fetchPages t fuel (page + 1) acc2
      (s.1, r.2 ++ Event.pageDelay :: s.2)
    | .skip =>
      let s := fetchPages t fuel (page + 1) acc
      (s.1, r.2 ++ Event.pageDelay :: s.2)

/-- fetch_all_data: start at page 1 with an empty record list. -/
def fetch_all_data (t : Transport) (fuel : Nat) : Option (List Nat) × List Event :=
  fetchPages t fuel 1 []

/-- The requests issued in a trace, as (page, attempt) pairs in order. -/
def requestsOf (evs : List Event) : List (Nat × Nat) :=
  evs.filterMap (fun e => match e with
    | .request p a => some (p, a)
    | _ => none)

/-- The backoff sleeps of a trace, in seconds, in order (the fixed
inter-page delay is not a backoff sleep). -/
def waitsOf (evs : List Event) : List Nat :=
  evs.filterMap (fun e => match e with
    | .wait s => some s
    | _ => none)

/-- Transport used as a concrete input below: page 1 is rate limited on
every attempt, any other page succeeds with one record and one total
page. -/
def always429Page1 : Transport := fun p _ =>
  if p = 1 then .rateLimited
  else .ok ⟨some [9], some ⟨some 1⟩⟩

/-- Transport used as a concrete input below: every page fails with a
non-429 error on attempt 0 and succeeds on later attempts. -/
def errThenOk : Transport := fun _ a =>
  if a = 0 then .transportError
  else .ok ⟨some [7], some ⟨some 1⟩⟩

/-- Transport used as a concrete input below: every request fails with a
non-429 transport error. -/
def alwaysErr : Transport := fun _ _ => .transportError

/-- Transport used as a concrete input below: every page is rate limited
twice and then succeeds with one record and one total page. -/
def twice429ThenOk : Transport := fun _ a =>
  if a < 2 then .rateLimited
  else .ok ⟨some [4], some ⟨some 1⟩⟩

/-- Transport used as a concrete input below: every page succeeds at
attempt 0 with the single record p on page p, reporting three total
pages. -/
def threePages : Transport := fun p _ =>
  .ok ⟨some [p], some ⟨some 3⟩⟩

/-- Transport used as a concrete input below: every request succeeds
with one record and no pagination object at all. -/
def noPagination : Transport := fun _ _ =>
  .ok ⟨some [8], none⟩

/-! ## PriceCache: get_or_fetch_price_data -/

/-- Rows sorted by date, as save_price_data writes them
(sorted of the dict items; the keys of a dict are unique, so comparing
the date component decides the order). -/
def sortRows (m : PriceMap) : PriceMap :=
  List.insertionSort (fun a b => a.1 ≤ b.1) m

/-- save_price_data (lines 195 to 214): an empty map is refused and
nothing is written; otherwise the rows are written sorted by date.  The
result is the snapshot written, none when no file was produced. -/
def save_price_data (m : PriceMap) : Option PriceMap :=
  if m.isEmpty then none else some (sortRows m)

/-- The Python dict union of existing and new (double-star merge): rows
of new overwrite rows of existing sharing a date; all other existing rows
are retained. -/
def dictMerge (old new : PriceMap) : PriceMap :=
  old.filter (fun p => decide (p.1 ∉ keysOf new)) ++ new

/-- The observable outcome of one get_or_fetch_price_data call: the map
returned, whether a fresh historical fetch was performed, and the
snapshot written (none when nothing was persisted). -/
structure CacheOutcome where
  result : PriceMap
  didFetch : Bool
  persisted : Option PriceMap
  deriving DecidableEq

/-- Embedding of get_or_fetch_price_data (lines 227 to 261).  snapshot
is the most recent persisted snapshot, if any, as the loaded date-price
map together with its age in whole days (the .days of now minus the file
creation time; a load failure yields the empty map).  fresh is the map a
fresh fetch_historical_tao_prices call would return. -/
def get_or_fetch_price_data (snapshot : Option (PriceMap × Nat))
    (fresh : PriceMap) : CacheOutcome :=
  match snapshot with
  | some (existing, ageDays) =>
    if ageDays > 1 then
      let combined := dictMerge existing fresh
      ⟨combined, true, save_price_data combined⟩
    else
      ⟨existing, false, none⟩
  | none =>
    ⟨fresh, true, save_price_data fresh⟩

/-! ## PriceSource: fetch_tao_price_data and fetch_historical_tao_prices -/

/-- Outcome of the one-day yfinance history query behind the current
price: the list of Close values of the returned frame, or a raised
exception. -/
inductive FeedOneDay where
  | closes (cs : List Rat)
  | error
  deriving DecidableEq

/-- fetch_tao_price_data (lines 103 to 122): the most recent Close when
the one-day history is non-empty, and the documented 500 fallback
constant when the history is empty or the feed raises. -/
def fetch_tao_price_data (f : FeedOneDay) : Rat :=
  match f with
  | .closes cs =>
    match cs.getLast? with
    | some p => p
    | none => 500
  | .error => 500

/-- Outcome of the historical yfinance query: dated Close rows, or a
raised exception. -/
inductive FeedHist where
  | rows (rs : PriceMap)
  | error
  deriving DecidableEq

/-- Embedding of fetch_historical_tao_prices (lines 124 to 193).  today
is the current calendar date.  A non-empty history is returned as the
date-to-Close map.  An empty history or a feed failure falls back to the
current price: the Python truthiness test (if current_price) admits the
single-entry map only when that price is non-zero, and otherwise control
reaches the final empty-dict return.  The inner try-except around the
fallback is dead code because fetch_tao_price_data catches every
exception itself. -/
def fetch_historical_tao_prices (hist : FeedHist) (oneDay : FeedOneDay)
    (today : Nat) : PriceMap :=
  match hist with
  | .rows rs =>
    if rs.isEmpty then
      let cp := fetch_tao_price_data oneDay
      if cp ≠ 0 then [(today, cp)] else []
    else rs
  | .error =>
    let cp := fetch_tao_price_data oneDay
    if cp ≠ 0 then [(today, cp)] else []

/-! ## RecordNormalizer: process_data -/

/-- A raw API record (the fields process_data reads).  issued and staked
are the integer values parsed from the integer strings of the payload, in
the smallest ledger unit; the timestamp is seconds since the epoch. -/
structure RawRecord where
  timestamp : Nat
  block_number : Nat
  issued : Nat
  staked : Nat
  accounts : Nat
  balance_holders : Nat
  deriving DecidableEq

/-- The UTC calendar day of a timestamp in seconds, modelling
datetime.fromisoformat followed by strftime to day granularity. -/
def tsDate (ts : Nat) : Nat := ts / 86400

/-- One output row of process_data.  The four USD fields are attached
together by a single dict update and are absent otherwise, hence the
Option fields. -/
structure Observation where
  timestamp : Nat
  block_number : Nat
  issued_tao : Rat
  staked_tao : Rat
  circulating_tao : Rat
  staked_percentage : Rat
  circulating_percentage : Rat
  accounts : Nat
  balance_holders : Nat
  tao_price_usd : Option Rat
  total_market_cap_usd : Option Rat
  staked_market_cap_usd : Option Rat
  circulating_market_cap_usd : Option Rat
  deriving DecidableEq

/-- The per-entry body of process_data (bittensor_stats variant, lines
273 to 329).  The inline nearest-date lookup of lines 305 to 319 is the
same algorithm as get_price_for_date, which is reused here.  When
price_data is none (the include_usd false path, and the whole root
variant) no USD field is attached. -/
def processEntry (price_data : Option PriceMap) (e : RawRecord) : Observation :=
  let issued : Rat := e.issued
  let staked : Rat := e.staked
  let staked_percentage : Rat := if 0 < e.issued then staked / issued * 100 else 0
  let issued_tao := issued / 10 ^ 9
  let staked_tao := staked / 10 ^ 9
  let circulating_tao := issued_tao - staked_tao
  let circulating_percentage : Rat :=
    if 0 < issued_tao then circulating_tao / issued_tao * 100 else 0
  let priced : Option Rat :=
    match price_data with
    | none => none
    | some pd => get_price_for_date pd (tsDate e.timestamp)
  { timestamp := e.timestamp
    block_number := e.block_number
    issued_tao := issued_tao
    staked_tao := staked_tao
    circulating_tao := circulating_tao
    staked_percentage := staked_percentage
    circulating_percentage := circulating_percentage
    accounts := e.accounts
    balance_holders := e.balance_holders
    tao_price_usd := priced
    total_market_cap_usd := priced.map (fun p => issued_tao * p)
    staked_market_cap_usd := priced.map (fun p => staked_tao * p)
    circulating_market_cap_usd := priced.map (fun p => circulating_tao * p) }

/-- process_data (lines 263 to 333): map every raw entry to an
observation, then sort the rows by timestamp (df.sort_values).  The
external get_or_fetch_price_data call taken when include_usd is true and
no map is passed is outside this pure function; callers here always pass
the map explicitly (some map) or ask for no USD enrichment (none). -/
def process_data (price_data : Option PriceMap) (raw : List RawRecord) :
    List Observation :=
  List.insertionSort (fun a b => a.timestamp ≤ b.timestamp)
    (raw.map (processEntry price_data))

/-- A concrete raw record used as an input below. -/
def dupRecord : RawRecord := ⟨100, 1, 10, 5, 2, 2⟩

/-- A concrete raw record with an early timestamp, used below. -/
def recEarly : RawRecord := ⟨50, 1, 10, 5, 2, 2⟩

/-- A concrete raw record with a late timestamp, used below. -/
def recLate : RawRecord := ⟨90000, 2, 20, 5, 3, 3⟩

instance : IsTotal Observation (fun a b => a.timestamp ≤ b.timestamp) :=
  ⟨fun a b => Nat.le_total a.timestamp b.timestamp⟩

instance : IsTrans Observation (fun a b => a.timestamp ≤ b.timestamp) :=
  ⟨fun _ _ _ h h2 => Nat.le_trans h h2⟩

/-! ## Theorems -/

theorem lookup_cons (k : Nat) (v : Rat) (tl : PriceMap) (d : Nat) :
    List.lookup d ((k, v) :: tl) = if d = k then some v else List.lookup d tl := by
  by_cases h : d = k
  · subst h
    simp [List.lookup]
  · have hbeq : (d == k) = false := by simpa using h
    simp [List.lookup, hbeq, h]

theorem lookup_isSome_iff (m : PriceMap) (d : Nat) :
    (m.lookup d).isSome ↔ d ∈ keysOf m := by
  induction m with
  | nil => simp [keysOf, List.lookup]
  | cons a tl ih =>
    rcases a with ⟨k, v⟩
    rw [lookup_cons]
    by_cases h : d = k
    · subst h
      simp [keysOf]
    · rw [if_neg h, ih]
      simp [keysOf, h]

theorem lookup_eq_none_of_not_mem {m : PriceMap} {d : Nat}
    (h : d ∉ keysOf m) : m.lookup d = none := by
  rcases hl : m.lookup d with _ | p
  · rfl
  · exact absurd ((lookup_isSome_iff m d).1 (by simp [hl])) h

theorem lookup_eq_some_of_mem {m : PriceMap} {d : Nat} {p : Rat}
    (hnd : (keysOf m).Nodup) (hmem : (d, p) ∈ m) : m.lookup d = some p := by
  induction m with
  | nil => cases hmem
  | cons a tl ih =>
    rcases a with ⟨k, v⟩
    have hnd2 : k ∉ keysOf tl ∧ (keysOf tl).Nodup := by
      simpa [keysOf, List.nodup_cons] using hnd
    rw [lookup_cons]
    rcases List.mem_cons.1 hmem with h | h
    · cases h
      simp
    · have hdk : d ≠ k := by
        intro hdk
        subst hdk
        exact hnd2.1 (List.mem_map.2 ⟨(d, p), h, rfl⟩)
      rw [if_neg hdk]
      exact ih hnd2.2 h

theorem find?_min_of_sorted {l : List Nat} (hs : List.Sorted (· ≤ ·) l)
    {d k : Nat} (h : l.find? (fun x => d ≤ x) = some k) :
    ∀ x ∈ l, d ≤ x → k ≤ x := by
  induction l with
  | nil => simp at h
  | cons a tl ih =>
    by_cases ha : d ≤ a
    · rw [List.find?_cons_of_pos _ (by simpa using ha)] at h
      cases h
      intro x hx _
      rcases List.mem_cons.1 hx with rfl | hx
      · exact le_refl _
      · exact List.rel_of_sorted_cons hs x hx
    · rw [List.find?_cons_of_neg _ (by simpa using ha)] at h
      intro x hx hdx
      rcases List.mem_cons.1 hx with rfl | hx
      · exact absurd hdx ha
      · exact ih hs.of_cons h x hx hdx

theorem le_getLast?_of_sorted {l : List Nat} (hs : List.Sorted (· ≤ ·) l)
    {k : Nat} (h : l.getLast? = some k) : ∀ x ∈ l, x ≤ k := by
  induction l with
  | nil => simp at h
  | cons a tl ih =>
    cases tl with
    | nil =>
      simp at h
      subst h
      intro x hx
      simp at hx
      simp [hx]
    | cons b tl2 =>
      have h2 : (b :: tl2).getLast? = some k := by
        rw [List.getLast?_cons_cons] at h
        exact h
      have hk : k ∈ b :: tl2 := by
        rcases List.mem_getLast?_eq_getLast h2 with ⟨hne, hkeq⟩
        exact hkeq ▸ List.getLast_mem hne
      intro x hx
      rcases List.mem_cons.1 hx with rfl | hx
      · exact List.rel_of_sorted_cons hs k hk
      · exact ih hs.of_cons h2 x hx

/-- Claim C1: nearest-date price resolution.  For every target date d and
every price map with unique keys: resolution on the empty map fails; when d
is a key, resolution returns the price of d; when d is not a key but some
key is at or after d, resolution returns the price of the smallest such key;
when d is after every key, resolution returns the price of the maximum key. -/
theorem C1_nearest_date_resolution (m : PriceMap) (d : Nat)
    (hnd : (keysOf m).Nodup) :
    (m = [] → get_price_for_date m d = none) ∧
    (∀ p : Rat, (d, p) ∈ m → get_price_for_date m d = some p) ∧
    (d ∉ keysOf m → ∀ k₀ ∈ keysOf m, d ≤ k₀ →
      (∀ k ∈ keysOf m, d ≤ k → k₀ ≤ k) →
      get_price_for_date m d = m.lookup k₀ ∧ (m.lookup k₀).isSome) ∧
    (m ≠ [] → (∀ k ∈ keysOf m, k < d) → ∀ kmax ∈ keysOf m,
      (∀ k ∈ keysOf m, k ≤ kmax) →
      get_price_for_date m d = m.lookup kmax ∧ (m.lookup kmax).isSome) := by
  have hsorted : List.Sorted (· ≤ ·) (List.insertionSort (· ≤ ·) (keysOf m)) :=
    List.sorted_insertionSort _ _
  refine ⟨?_, ?_, ?_, ?_⟩
  · rintro rfl
    rfl
  · intro p hp
    unfold get_price_for_date
    rw [lookup_eq_some_of_mem hnd hp]
  · intro hd k₀ hk₀ hdk₀ hmin
    have hnone : m.lookup d = none := lookup_eq_none_of_not_mem hd
    have hk₀s : k₀ ∈ List.insertionSort (· ≤ ·) (keysOf m) :=
      (List.mem_insertionSort _).2 hk₀
    have hfind : ∃ k, (List.insertionSort (· ≤ ·) (keysOf m)).find?
        (fun k => d ≤ k) = some k := by
      rcases hf : (List.insertionSort (· ≤ ·) (keysOf m)).find? (fun k => d ≤ k)
        with _ | k
      · exact absurd (by simpa using List.find?_eq_none.1 hf k₀ hk₀s) (by simp [hdk₀])
      · exact ⟨k, rfl⟩
    rcases hfind with ⟨k, hk⟩
    have hdk : d ≤ k := by simpa using List.find?_some hk
    have hks : k ∈ keysOf m :=
      (List.mem_insertionSort _).1 (List.mem_of_find?_eq_some hk)
    have h1 : k ≤ k₀ := find?_min_of_sorted hsorted hk k₀ hk₀s hdk₀
    have h2 : k₀ ≤ k := hmin k hks hdk
    have hkk : k = k₀ := le_antisymm h1 h2
    subst hkk
    constructor
    · unfold get_price_for_date
      rw [hnone, hk]
    · exact (lookup_isSome_iff m k).2 hks
  · intro hne hall kmax hkmax hmax
    have hd : d ∉ keysOf m := fun hmem => absurd (hall d hmem) (lt_irrefl d)
    have hnone : m.lookup d = none := lookup_eq_none_of_not_mem hd
    have hfind : (List.insertionSort (· ≤ ·) (keysOf m)).find?
        (fun k => d ≤ k) = none := by
      apply List.find?_eq_none.2
      intro x hx
      simp only [decide_eq_true_eq]
      exact not_le_of_lt (hall x ((List.mem_insertionSort _).1 hx))
    have hsne : List.insertionSort (· ≤ ·) (keysOf m) ≠ [] := by
      intro hempty
      apply hne
      have hlen : (keysOf m).length = 0 := by
        rw [← List.length_insertionSort (· ≤ ·) (keysOf m), hempty]
        rfl
      have hm : m.length = 0 := by simpa [keysOf] using hlen
      exact List.length_eq_zero.1 hm
    have hlast : ∃ kl, (List.insertionSort (· ≤ ·) (keysOf m)).getLast? = some kl :=
      ⟨_, List.getLast?_eq_getLast_of_ne_nil hsne⟩
    rcases hlast with ⟨kl, hkl⟩
    have hkls : kl ∈ List.insertionSort (· ≤ ·) (keysOf m) := by
      rcases List.mem_getLast?_eq_getLast hkl with ⟨hne2, hkeq⟩
      exact hkeq ▸ List.getLast_mem hne2
    have hklm : kl ∈ keysOf m := (List.mem_insertionSort _).1 hkls
    have h1 : kmax ≤ kl :=
      le_getLast?_of_sorted hsorted hkl kmax ((List.mem_insertionSort _).2 hkmax)
    have h2 : kl ≤ kmax := hmax kl hklm
    have hkk : kl = kmax := le_antisymm h2 h1
    subst hkk
    constructor
    · unfold get_price_for_date
      rw [hnone, hfind, hkl]
    · exact (lookup_isSome_iff m kl).2 hklm

/-- Witness for C1: on the map mapping date 1 to price 50 and date 3 to
price 100, resolving target date 2 forward-fills to the smallest key at or
after 2, namely 3, giving price 100. -/
theorem C1_nearest_date_resolution_witness :
    get_price_for_date [(1, (50 : Rat)), (3, 100)] 2 = some 100 := by
  have h := (C1_nearest_date_resolution [(1, (50 : Rat)), (3, 100)] 2
    (by decide)).2.2.1 (by decide) 3 (by decide) (by decide)
    (by decide)
  exact h.1.trans rfl

theorem waitsOf_cons_request (p a : Nat) (evs : List Event) :
    waitsOf (.request p a :: evs) = waitsOf evs := rfl

theorem waitsOf_cons_wait (s : Nat) (evs : List Event) :
    waitsOf (.wait s :: evs) = s :: waitsOf evs := rfl

theorem waitsOf_nil : waitsOf [] = [] := rfl

theorem requestsOf_cons_request (p a : Nat) (evs : List Event) :
    requestsOf (.request p a :: evs) = (p, a) :: requestsOf evs := rfl

theorem requestsOf_cons_wait (s : Nat) (evs : List Event) :
    requestsOf (.wait s :: evs) = requestsOf evs := rfl

theorem requestsOf_cons_delay (evs : List Event) :
    requestsOf (.pageDelay :: evs) = requestsOf evs := rfl

theorem requestsOf_nil : requestsOf [] = [] := rfl

theorem requestsOf_append (l1 l2 : List Event) :
    requestsOf (l1 ++ l2) = requestsOf l1 ++ requestsOf l2 :=
  List.filterMap_append l1 l2 _

theorem attemptLoop_succ_429 {t : Transport} {page : Nat} {acc : List Nat}
    {rc f : Nat} (h : t page rc = .rateLimited) :
    attemptLoop t page acc rc (f + 1) =
      ((attemptLoop t page acc (rc + 1) f).1,
        .request page rc :: .wait (5 + 2 ^ rc) ::
          (attemptLoop t page acc (rc + 1) f).2) := by
  simp only [attemptLoop, h]

theorem attemptLoop_succ_err {t : Transport} {page : Nat} {acc : List Nat}
    {rc f : Nat} (h : t page rc = .transportError) (hf : f ≠ 0) :
    attemptLoop t page acc rc (f + 1) =
      ((attemptLoop t page acc (rc + 1) f).1,
        .request page rc :: .wait (2 ^ (rc + 1)) ::
          (attemptLoop t page acc (rc + 1) f).2) := by
  simp only [attemptLoop, h, hf, if_false]

theorem attemptLoop_err_last {t : Transport} {page : Nat} {acc : List Nat}
    {rc : Nat} (h : t page rc = .transportError) :
    attemptLoop t page acc rc (0 + 1) = (.done acc, [.request page rc]) := by
  simp [attemptLoop, h]

theorem attemptLoop_ok_some {t : Transport} {page : Nat} {acc : List Nat}
    {rc f : Nat} {b : ResponseBody} {x : Nat} {xs : List Nat}
    (ht : t page rc = .ok b) (hd : b.data = some (x :: xs)) :
    attemptLoop t page acc rc (f + 1) =
      if page ≥ effTotalPages b
      then (.done (acc ++ x :: xs), [.request page rc])
      else (.next (acc ++ x :: xs), [.request page rc]) := by
  simp only [attemptLoop, ht, hd]

theorem attemptLoop_ok_endOfStream {t : Transport} {page : Nat} {acc : List Nat}
    {rc f : Nat} {b : ResponseBody}
    (ht : t page rc = .ok b) (hd : b.data = none ∨ b.data = some []) :
    attemptLoop t page acc rc (f + 1) = (.done acc, [.request page rc]) := by
  rcases hd with hd | hd <;> simp [attemptLoop, ht, hd]

theorem attemptLoop_allErr {t : Transport} {page : Nat}
    (herr : ∀ a, t page a = .transportError) :
    ∀ f rc acc,
      (attemptLoop t page acc rc (f + 1)).1 = .done acc ∧
      waitsOf (attemptLoop t page acc rc (f + 1)).2 =
        (List.range' (rc + 1) f).map (fun a => 2 ^ a) ∧
      requestsOf (attemptLoop t page acc rc (f + 1)).2 =
        (List.range' rc (f + 1)).map (fun a => (page, a)) := by
  intro f
  induction f with
  | zero =>
    intro rc acc
    rw [attemptLoop_err_last (herr rc)]
    refine ⟨rfl, rfl, ?_⟩
    simp [requestsOf_cons_request, requestsOf_nil, List.range']
  | succ f ih =>
    intro rc acc
    have hih := ih (rc + 1) acc
    rw [attemptLoop_succ_err (herr rc) (Nat.succ_ne_zero f)]
    refine ⟨hih.1, ?_, ?_⟩
    · rw [waitsOf_cons_request, waitsOf_cons_wait, hih.2.1,
        List.range'_succ, List.map_cons]
    · rw [requestsOf_cons_request, requestsOf_cons_wait, hih.2.2]
      conv_rhs => rw [List.range'_succ, List.map_cons]

theorem attemptLoop_all429 {t : Transport} {page : Nat}
    (h429 : ∀ a, t page a = .rateLimited) :
    ∀ f rc acc,
      (attemptLoop t page acc rc f).1 = .skip ∧
      waitsOf (attemptLoop t page acc rc f).2 =
        (List.range' rc f).map (fun a => 5 + 2 ^ a) ∧
      requestsOf (attemptLoop t page acc rc f).2 =
        (List.range' rc f).map (fun a => (page, a)) := by
  intro f
  induction f with
  | zero =>
    intro rc acc
    exact ⟨rfl, rfl, rfl⟩
  | succ f ih =>
    intro rc acc
    have hih := ih (rc + 1) acc
    rw [attemptLoop_succ_429 (h429 rc)]
    refine ⟨hih.1, ?_, ?_⟩
    · rw [waitsOf_cons_request, waitsOf_cons_wait, hih.2.1,
        List.range'_succ, List.map_cons]
    · rw [requestsOf_cons_request, requestsOf_cons_wait, hih.2.2,
        List.range'_succ, List.map_cons]

theorem attemptLoop_429s_then_ok {t : Transport} {page : Nat} {b : ResponseBody}
    {x : Nat} {xs : List Nat} (hd : b.data = some (x :: xs)) :
    ∀ j rc f acc, j < f →
      (∀ a, a < j → t page (rc + a) = .rateLimited) →
      t page (rc + j) = .ok b →
      waitsOf (attemptLoop t page acc rc f).2 =
        (List.range' rc j).map (fun a => 5 + 2 ^ a) ∧
      (attemptLoop t page acc rc f).1 =
        (if page ≥ effTotalPages b then PageOutcome.done (acc ++ x :: xs)
         else PageOutcome.next (acc ++ x :: xs)) := by
  intro j
  induction j with
  | zero =>
    intro rc f acc hjf h429 hok
    rcases f with _ | f
    · omega
    · rw [Nat.add_zero] at hok
      rw [attemptLoop_ok_some hok hd]
      by_cases hge : page ≥ effTotalPages b <;>
        simp [hge, waitsOf_cons_request, waitsOf_nil]
  | succ j ih =>
    intro rc f acc hjf h429 hok
    rcases f with _ | f
    · omega
    · have h0 : t page rc = .rateLimited := by
        have := h429 0 (Nat.succ_pos j)
        rwa [Nat.add_zero] at this
      have h429s : ∀ a, a < j → t page (rc + 1 + a) = .rateLimited := by
        intro a ha
        have := h429 (a + 1) (by omega)
        rwa [show rc + (a + 1) = rc + 1 + a by omega] at this
      have hok2 : t page (rc + 1 + j) = .ok b := by
        rwa [show rc + (j + 1) = rc + 1 + j by omega] at hok
      have hih := ih (rc + 1) f acc (by omega) h429s hok2
      rw [attemptLoop_succ_429 h0]
      refine ⟨?_, hih.2⟩
      rw [waitsOf_cons_request, waitsOf_cons_wait, hih.1]
      conv_rhs => rw [List.range'_succ, List.map_cons]

theorem fetchPages_succ (t : Transport) (fuel page : Nat) (acc : List Nat) :
    fetchPages t (fuel + 1) page acc =
      match (attemptLoop t page acc 0 MAX_RETRIES).1 with
      | .done acc2 => (some acc2, (attemptLoop t page acc 0 MAX_RETRIES).2)
      | .next acc2 =>
        ((fetchPages t fuel (page + 1) acc2).1,
          (attemptLoop t page acc 0 MAX_RETRIES).2 ++
            Event.pageDelay :: (fetchPages t fuel (page + 1) acc2).2)
      | .skip =>
        ((fetchPages t fuel (page + 1) acc).1,
          (attemptLoop t page acc 0 MAX_RETRIES).2 ++
            Event.pageDelay :: (fetchPages t fuel (page + 1) acc).2) := rfl

theorem fetchPages_done1 {t : Transport} (fuel : Nat) {page : Nat}
    {acc acc2 : List Nat}
    (h : (attemptLoop t page acc 0 MAX_RETRIES).1 = .done acc2) :
    fetchPages t (fuel + 1) page acc =
      (some acc2, (attemptLoop t page acc 0 MAX_RETRIES).2) := by
  rw [fetchPages_succ, h]

theorem fetchPages_next1 {t : Transport} {fuel page : Nat} {acc acc2 : List Nat}
    (h : (attemptLoop t page acc 0 MAX_RETRIES).1 = .next acc2) :
    fetchPages t (fuel + 1) page acc =
      ((fetchPages t fuel (page + 1) acc2).1,
        (attemptLoop t page acc 0 MAX_RETRIES).2 ++
          Event.pageDelay :: (fetchPages t fuel (page + 1) acc2).2) := by
  rw [fetchPages_succ, h]

theorem fetchPages_skip1 {t : Transport} {fuel page : Nat} {acc : List Nat}
    (h : (attemptLoop t page acc 0 MAX_RETRIES).1 = .skip) :
    fetchPages t (fuel + 1) page acc =
      ((fetchPages t fuel (page + 1) acc).1,
        (attemptLoop t page acc 0 MAX_RETRIES).2 ++
          Event.pageDelay :: (fetchPages t fuel (page + 1) acc).2) := by
  rw [fetchPages_succ, h]

theorem fetchPages_fullRun (t : Transport) (n : Nat) (D : Nat → List Nat)
    (ht : ∀ p, 1 ≤ p → p ≤ n → t p 0 = .ok ⟨some (D p), some ⟨some n⟩⟩)
    (hne : ∀ p, 1 ≤ p → p ≤ n → D p ≠ []) :
    ∀ fuel page acc, 1 ≤ page → page ≤ n → n - page < fuel →
      (fetchPages t fuel page acc).1 =
        some (acc ++ ((List.range' page (n - page + 1)).map D).flatten) ∧
      requestsOf (fetchPages t fuel page acc).2 =
        (List.range' page (n - page + 1)).map (fun p => (p, 0)) := by
  intro fuel
  induction fuel with
  | zero =>
    intro page acc h1 h2 h3
    omega
  | succ f ih =>
    intro page acc h1 h2 h3
    obtain ⟨x, xs, hD⟩ : ∃ x xs, D page = x :: xs := by
      rcases hDp : D page with _ | ⟨x, xs⟩
      · exact absurd hDp (hne page h1 h2)
      · exact ⟨x, xs, rfl⟩
    have hok : t page 0 = .ok ⟨some (D page), some ⟨some n⟩⟩ := ht page h1 h2
    have hdata : (ResponseBody.mk (some (D page)) (some ⟨some n⟩)).data =
        some (x :: xs) := by simp [hD]
    have heff : effTotalPages ⟨some (D page), some ⟨some n⟩⟩ = n := by
      simp [effTotalPages]
    have hMR : MAX_RETRIES = 2 + 1 := rfl
    have hal : attemptLoop t page acc 0 MAX_RETRIES =
        if page ≥ effTotalPages ⟨some (D page), some ⟨some n⟩⟩
        then (.done (acc ++ x :: xs), [.request page 0])
        else (.next (acc ++ x :: xs), [.request page 0]) := by
      rw [hMR]
      exact attemptLoop_ok_some hok hdata
    by_cases hge : page ≥ n
    · have hdone : attemptLoop t page acc 0 MAX_RETRIES =
          (.done (acc ++ x :: xs), [.request page 0]) := by
        rw [hal, if_pos (by rw [heff]; exact hge)]
      have hfp := fetchPages_done1 f (congrArg Prod.fst hdone)
      have hcount : n - page + 1 = 1 := by omega
      rw [hfp, hcount]
      constructor
      · have hflat : ((List.range' page 1).map D).flatten = x :: xs := by
          simp [List.range', hD]
        simp [hflat, hD]
      · have hsnd : (attemptLoop t page acc 0 MAX_RETRIES).2 =
            [Event.request page 0] := congrArg Prod.snd hdone
        simp [hsnd, requestsOf_cons_request, requestsOf_nil, List.range']
    · have hlt : page < n := by omega
      have hnext : attemptLoop t page acc 0 MAX_RETRIES =
          (.next (acc ++ x :: xs), [.request page 0]) := by
        rw [hal, if_neg (by rw [heff]; omega)]
      have hrec := ih (page + 1) (acc ++ x :: xs) (by omega) (by omega) (by omega)
      rw [fetchPages_next1 (congrArg Prod.fst hnext)]
      have hcount : n - page + 1 = (n - (page + 1) + 1) + 1 := by omega
      constructor
      · rw [hrec.1, hcount]
        conv_rhs => rw [List.range'_succ, List.map_cons, List.flatten_cons, hD]
        rw [← List.append_assoc]
      · have hsnd : (attemptLoop t page acc 0 MAX_RETRIES).2 =
            [Event.request page 0] := congrArg Prod.snd hnext
        rw [hsnd, hcount]
        conv_rhs => rw [List.range'_succ, List.map_cons]
        rw [← hrec.2]
        simp [requestsOf_append, requestsOf_cons_request, requestsOf_cons_delay,
          requestsOf_nil]

theorem attemptLoop_head_request (t : Transport) (page : Nat) (acc : List Nat)
    (rc f : Nat) :
    (page, rc) ∈ requestsOf (attemptLoop t page acc rc (f + 1)).2 := by
  cases h : t page rc with
  | rateLimited =>
    simp [attemptLoop_succ_429 h, requestsOf_cons_request, requestsOf_cons_wait]
  | transportError =>
    rcases f with _ | f
    · simp [attemptLoop_err_last h, requestsOf_cons_request, requestsOf_nil]
    · simp [attemptLoop_succ_err h (Nat.succ_ne_zero f), requestsOf_cons_request,
        requestsOf_cons_wait]
  | ok b =>
    rcases hd : b.data with _ | recs
    · simp [attemptLoop_ok_endOfStream h (Or.inl hd), requestsOf_cons_request,
        requestsOf_nil]
    · rcases recs with _ | ⟨x, xs⟩
      · simp [attemptLoop_ok_endOfStream h (Or.inr hd), requestsOf_cons_request,
          requestsOf_nil]
      · by_cases hge : page ≥ effTotalPages b <;>
          simp [attemptLoop_ok_some h hd, hge, requestsOf_cons_request,
            requestsOf_nil]

theorem fetchPages_first_request (t : Transport) (f page : Nat) (acc : List Nat) :
    (page, 0) ∈ requestsOf (fetchPages t (f + 1) page acc).2 := by
  have hMR : MAX_RETRIES = 2 + 1 := rfl
  have hhead : (page, 0) ∈ requestsOf (attemptLoop t page acc 0 MAX_RETRIES).2 := by
    rw [hMR]
    exact attemptLoop_head_request t page acc 0 2
  rcases hout : (attemptLoop t page acc 0 MAX_RETRIES).1 with acc2 | acc2 | _
  · rw [fetchPages_done1 f hout]
    exact hhead
  · rw [fetchPages_next1 hout]
    show (page, 0) ∈ requestsOf ((attemptLoop t page acc 0 MAX_RETRIES).2 ++
      Event.pageDelay :: (fetchPages t f (page + 1) acc2).2)
    rw [requestsOf_append]
    exact List.mem_append_left _ hhead
  · rw [fetchPages_skip1 hout]
    show (page, 0) ∈ requestsOf ((attemptLoop t page acc 0 MAX_RETRIES).2 ++
      Event.pageDelay :: (fetchPages t f (page + 1) acc).2)
    rw [requestsOf_append]
    exact List.mem_append_left _ hhead

/-- Claim C4: pagination terminates and returns the full concatenation.
For every upstream reporting total_pages equal to n whose pages 1 to n
answer non-empty record lists at the first attempt, fetch_all_data
requests exactly pages 1 to n in ascending order (in particular it never
requests page n plus one), and returns the concatenation of the records
of pages 1 to n; moreover a successful response whose data field is
absent or empty ends the stream immediately with everything accumulated
so far. -/
theorem C4_pagination_terminates (n : Nat) (t : Transport) (D : Nat → List Nat)
    (fuel : Nat) (hn : 1 ≤ n)
    (ht : ∀ p, 1 ≤ p → p ≤ n → t p 0 = .ok ⟨some (D p), some ⟨some n⟩⟩)
    (hne : ∀ p, 1 ≤ p → p ≤ n → D p ≠ [])
    (hfuel : n ≤ fuel) :
    (fetch_all_data t fuel).1 = some (((List.range' 1 n).map D).flatten) ∧
    requestsOf (fetch_all_data t fuel).2 =
      (List.range' 1 n).map (fun p => (p, 0)) ∧
    (∀ (t2 : Transport) (b : ResponseBody) (page : Nat) (acc : List Nat)
      (rc f2 : Nat),
      t2 page rc = .ok b → (b.data = none ∨ b.data = some []) →
      attemptLoop t2 page acc rc (f2 + 1) = (.done acc, [.request page rc])) := by
  have hfuel2 : n - 1 < fuel := by omega
  have h := fetchPages_fullRun t n D ht hne fuel 1 [] (le_refl 1) hn hfuel2
  have hcount : n - 1 + 1 = n := by omega
  rw [hcount] at h
  refine ⟨?_, ?_, ?_⟩
  · show (fetchPages t fuel 1 []).1 = _
    rw [h.1, List.nil_append]
  · exact h.2
  · intro t2 b page acc rc f2 hok hd
    exact attemptLoop_ok_endOfStream hok hd

/-- Witness for C4 at a concrete three-page upstream: the fetch returns
the concatenation of pages 1, 2 and 3 and requests exactly those pages
once each. -/
theorem C4_pagination_terminates_witness :
    (fetch_all_data threePages 3).1 = some [1, 2, 3] ∧
    requestsOf (fetch_all_data threePages 3).2 = [(1, 0), (2, 0), (3, 0)] := by
  have h := C4_pagination_terminates 3 threePages (fun p => [p]) 3 (by decide)
    (fun p h1 h2 => rfl) (fun p h1 h2 => by simp) (by decide)
  exact ⟨h.1.trans (by decide), h.2.1.trans (by decide)⟩

/-- Claim C10: a successful response with a non-empty data field but no
pagination object, or a pagination object without a total_pages key,
makes fetch_all_data substitute total_pages equal to 1; since the page
cursor is at least 1, the stop condition holds immediately, so that
page's records are appended and the fetch returns at once, issuing no
further request. -/
theorem C10_default_total_pages (t : Transport) (b : ResponseBody)
    (recs : List Nat) (page : Nat) (acc : List Nat) (fuel : Nat)
    (hp : 1 ≤ page) (ht : t page 0 = .ok b) (hd : b.data = some recs)
    (hne : recs ≠ [])
    (hpg : b.pagination = none ∨
      ∃ pg, b.pagination = some pg ∧ pg.total_pages = none) :
    effTotalPages b = 1 ∧
    fetchPages t (fuel + 1) page acc =
      (some (acc ++ recs), [Event.request page 0]) := by
  have heff : effTotalPages b = 1 := by
    rcases hpg with h | ⟨pg, h1, h2⟩
    · simp [effTotalPages, h]
    · simp [effTotalPages, h1, h2, Option.getD]
  refine ⟨heff, ?_⟩
  obtain ⟨x, xs, rfl⟩ : ∃ x xs, recs = x :: xs := by
    rcases recs with _ | ⟨x, xs⟩
    · exact absurd rfl hne
    · exact ⟨x, xs, rfl⟩
  have hMR : MAX_RETRIES = 2 + 1 := rfl
  have hdone : attemptLoop t page acc 0 MAX_RETRIES =
      (.done (acc ++ x :: xs), [.request page 0]) := by
    rw [hMR, attemptLoop_ok_some ht hd, if_pos (by rw [heff]; omega)]
  rw [fetchPages_done1 fuel (congrArg Prod.fst hdone),
    congrArg Prod.snd hdone]

/-- Witness for C10 at a concrete upstream that returns one record and no
pagination object: the effective total page count is 1 and the fetch
stops right after page 1. -/
theorem C10_default_total_pages_witness :
    effTotalPages ⟨some [8], none⟩ = 1 ∧
    fetchPages noPagination 1 1 [] = (some [8], [Event.request 1 0]) :=
  C10_default_total_pages noPagination ⟨some [8], none⟩ [8] 1 [] 0
    (by decide) rfl rfl (by simp) (Or.inl rfl)

/-- Claim C2 counterexample: at the concrete transport whose page 1
answers 429 on every attempt and whose page 2 succeeds, exhausting the
retry cap on page 1 does not make fetch_all_data return the records
accumulated so far (the empty list): it goes on to request page 2 and
returns that page's records. -/
theorem C2_counterexample :
    (fetch_all_data always429Page1 2).1 = some [9] ∧
    (some [9] : Option (List Nat)) ≠ some [] ∧
    (2, 0) ∈ requestsOf (fetch_all_data always429Page1 2).2 := by decide

/-- Claim C2, amended: when the retry cap is exhausted by repeated
non-429 transport or HTTP errors on a page, fetch_all_data abandons that
page and returns the accumulated records as a normal return, touching no
further page; when the cap is exhausted by repeated HTTP 429 responses,
the page is abandoned but the loop silently moves on and requests the
next page.  In neither case does the exhaustion escape as an exception
(in the embedding, both cases are ordinary return values). -/
theorem C2_retry_exhaustion (t : Transport) (page : Nat) (acc : List Nat)
    (fuel : Nat) :
    ((∀ a, t page a = .transportError) →
      (fetchPages t (fuel + 1) page acc).1 = some acc ∧
      ∀ pr ∈ requestsOf (fetchPages t (fuel + 1) page acc).2, pr.1 = page) ∧
    ((∀ a, t page a = .rateLimited) →
      (fetchPages t (fuel + 1) page acc).1 =
        (fetchPages t fuel (page + 1) acc).1 ∧
      (1 ≤ fuel →
        (page + 1, 0) ∈ requestsOf (fetchPages t (fuel + 1) page acc).2)) := by
  constructor
  · intro herr
    have hMR : MAX_RETRIES = 2 + 1 := rfl
    have hal := attemptLoop_allErr herr 2 0 acc
    have h1 : (attemptLoop t page acc 0 MAX_RETRIES).1 = .done acc := by
      rw [hMR]
      exact hal.1
    rw [fetchPages_done1 fuel h1]
    refine ⟨rfl, ?_⟩
    intro pr hpr
    have hpr2 : pr ∈ requestsOf (attemptLoop t page acc 0 MAX_RETRIES).2 := hpr
    have hreq : requestsOf (attemptLoop t page acc 0 MAX_RETRIES).2 =
        (List.range' 0 (2 + 1)).map (fun a => (page, a)) := by
      rw [hMR]
      exact hal.2.2
    rw [hreq] at hpr2
    rcases List.mem_map.1 hpr2 with ⟨a, _, heq⟩
    rw [← heq]
  · intro h429
    have hal := attemptLoop_all429 h429 MAX_RETRIES 0 acc
    rw [fetchPages_skip1 hal.1]
    refine ⟨rfl, ?_⟩
    intro hfuel
    rcases Nat.exists_eq_add_of_le hfuel with ⟨f2, hf2⟩
    show (page + 1, 0) ∈ requestsOf ((attemptLoop t page acc 0 MAX_RETRIES).2 ++
      Event.pageDelay :: (fetchPages t fuel (page + 1) acc).2)
    rw [requestsOf_append]
    apply List.mem_append_right
    show (page + 1, 0) ∈ requestsOf (Event.pageDelay ::
      (fetchPages t fuel (page + 1) acc).2)
    rw [requestsOf_cons_delay]
    have hf2b : fuel = f2 + 1 := by omega
    rw [hf2b]
    exact fetchPages_first_request t f2 (page + 1) acc

/-- Witness for C2: a transport failing page 1 with non-429 errors makes
the fetch return the accumulated records, and a transport answering 429
on every attempt of page 1 makes the fetch move on to page 2. -/
theorem C2_retry_exhaustion_witness :
    (fetchPages alwaysErr 1 1 [5]).1 = some [5] ∧
    (fetchPages always429Page1 2 1 []).1 =
      (fetchPages always429Page1 1 2 []).1 ∧
    (2, 0) ∈ requestsOf (fetchPages always429Page1 2 1 []).2 := by
  refine ⟨((C2_retry_exhaustion alwaysErr 1 [5] 0).1 (fun a => rfl)).1, ?_, ?_⟩
  · exact ((C2_retry_exhaustion always429Page1 1 [] 1).2 (fun a => rfl)).1
  · exact ((C2_retry_exhaustion always429Page1 1 [] 1).2 (fun a => rfl)).2
      (by decide)

/-- Claim C5 counterexample: at the concrete transport that fails page 1
with a non-429 error at attempt 0 and then succeeds, the single observed
backoff wait is 2 seconds, not the 2 to the power 0 equal to 1 second the
claim predicts for an error at attempt 0. -/
theorem C5_counterexample :
    waitsOf (attemptLoop errThenOk 1 [] 0 MAX_RETRIES).2 = [2] ∧
    (2 : Nat) ≠ 2 ^ 0 := by decide

/-- Claim C5, amended: within a single page request, with the attempt
counter starting at 0, an HTTP 429 response at attempt a causes a wait of
exactly 5 plus 2 to the a before the retry (so 429 twice then success
waits 5 plus 1 and then 5 plus 2 seconds before the third, successful
attempt); any other transport or HTTP error at attempt a causes a wait of
exactly 2 to the (a plus 1) before the retry while attempts remain, and
no wait at all when it exhausts the cap. -/
theorem C5_backoff_schedule (t : Transport) (page : Nat) (acc : List Nat)
    (b : ResponseBody) (x : Nat) (xs : List Nat) (j f : Nat)
    (hd : b.data = some (x :: xs)) :
    (j < f → (∀ a, a < j → t page a = .rateLimited) → t page j = .ok b →
      waitsOf (attemptLoop t page acc 0 f).2 =
        (List.range j).map (fun a => 5 + 2 ^ a) ∧
      (attemptLoop t page acc 0 f).1 =
        (if page ≥ effTotalPages b then PageOutcome.done (acc ++ x :: xs)
         else PageOutcome.next (acc ++ x :: xs))) ∧
    ((∀ a, t page a = .transportError) →
      waitsOf (attemptLoop t page acc 0 (f + 1)).2 =
        (List.range f).map (fun a => 2 ^ (a + 1))) := by
  constructor
  · intro hjf h429 hok
    have h429z : ∀ a, a < j → t page (0 + a) = .rateLimited := by
      intro a ha
      rw [Nat.zero_add]
      exact h429 a ha
    have hokz : t page (0 + j) = .ok b := by
      rw [Nat.zero_add]
      exact hok
    have h := attemptLoop_429s_then_ok hd j 0 f acc hjf h429z hokz
    refine ⟨?_, h.2⟩
    rw [h.1, List.range_eq_range']
  · intro herr
    have h := (attemptLoop_allErr herr f 0 acc).2.1
    rw [h, List.range'_eq_map_range, List.map_map]
    rw [List.range_eq_range', List.range'_eq_map_range, List.map_map]
    have hfun : ((fun a => 2 ^ a) ∘ (fun i => 0 + 1 + i)) =
        ((fun a => 2 ^ (a + 1)) ∘ (fun i => 0 + i)) := by
      funext i
      simp only [Function.comp]
      congr 1
      omega
    rw [hfun]
    simp [Function.comp, Nat.zero_add]

/-- Witness for C5: 429 twice then success waits 6 then 7 seconds and the
page succeeds; a page failing with non-429 errors on all of the three
allowed attempts waits 2 then 4 seconds (no wait after the last
attempt). -/
theorem C5_backoff_schedule_witness :
    waitsOf (attemptLoop twice429ThenOk 1 [] 0 MAX_RETRIES).2 = [6, 7] ∧
    (attemptLoop twice429ThenOk 1 [] 0 MAX_RETRIES).1 = PageOutcome.done [4] ∧
    waitsOf (attemptLoop alwaysErr 1 [] 0 MAX_RETRIES).2 = [2, 4] := by
  have h := (C5_backoff_schedule twice429ThenOk 1 []
    ⟨some [4], some ⟨some 1⟩⟩ 4 [] 2 3 rfl).1 (by decide)
    (fun a ha => by simp [twice429ThenOk, ha]) (by rfl)
  have h2 := (C5_backoff_schedule alwaysErr 1 []
    ⟨some [4], some ⟨some 1⟩⟩ 4 [] 0 2 rfl).2 (fun a => rfl)
  refine ⟨?_, ?_, ?_⟩
  · show waitsOf (attemptLoop twice429ThenOk 1 [] 0 3).2 = [6, 7]
    rw [h.1]
    decide
  · show (attemptLoop twice429ThenOk 1 [] 0 3).1 = PageOutcome.done [4]
    rw [h.2]
    decide
  · show waitsOf (attemptLoop alwaysErr 1 [] 0 (2 + 1)).2 = [2, 4]
    rw [h2]
    decide

theorem lookup_append_of_none {l1 l2 : PriceMap} {k : Nat}
    (h : l1.lookup k = none) : (l1 ++ l2).lookup k = l2.lookup k := by
  induction l1 with
  | nil => rfl
  | cons a tl ih =>
    rcases a with ⟨k2, v⟩
    by_cases hk : k = k2
    · subst hk
      rw [lookup_cons, if_pos rfl] at h
      cases h
    · rw [List.cons_append, lookup_cons, if_neg hk]
      rw [lookup_cons, if_neg hk] at h
      exact ih h

theorem lookup_append_of_some {l1 l2 : PriceMap} {k : Nat} {v : Rat}
    (h : l1.lookup k = some v) : (l1 ++ l2).lookup k = some v := by
  induction l1 with
  | nil => cases h
  | cons a tl ih =>
    rcases a with ⟨k2, v2⟩
    by_cases hk : k = k2
    · subst hk
      rw [lookup_cons, if_pos rfl] at h
      rw [List.cons_append, lookup_cons, if_pos rfl]
      exact h
    · rw [List.cons_append, lookup_cons, if_neg hk]
      rw [lookup_cons, if_neg hk] at h
      exact ih h

theorem lookup_filter_keys (old : PriceMap) (ks : List Nat) (k : Nat)
    (hk : k ∉ ks) :
    (old.filter (fun p => decide (p.1 ∉ ks))).lookup k = old.lookup k := by
  induction old with
  | nil => rfl
  | cons a tl ih =>
    rcases a with ⟨k2, v⟩
    rw [List.filter_cons]
    by_cases hmem : k2 ∈ ks
    · have hne : k ≠ k2 := fun h => hk (h ▸ hmem)
      rw [show (decide ((k2, v).1 ∉ ks)) = false by simp [hmem]]
      simp only [Bool.false_eq_true, if_false]
      rw [lookup_cons, if_neg hne]
      exact ih
    · rw [show (decide ((k2, v).1 ∉ ks)) = true by simp [hmem]]
      simp only [if_true]
      rw [lookup_cons, lookup_cons]
      by_cases hke : k = k2
      · rw [if_pos hke, if_pos hke]
      · rw [if_neg hke, if_neg hke]
        exact ih

theorem lookup_dictMerge (old new : PriceMap) (k : Nat) :
    (dictMerge old new).lookup k =
      if k ∈ keysOf new then new.lookup k else old.lookup k := by
  by_cases hk : k ∈ keysOf new
  · rw [if_pos hk]
    have hnone : (old.filter (fun p => decide (p.1 ∉ keysOf new))).lookup k =
        none := by
      apply lookup_eq_none_of_not_mem
      intro hmem
      rcases List.mem_map.1 hmem with ⟨p, hp, hpk⟩
      have hnp := (List.mem_filter.1 hp).2
      simp only [decide_eq_true_eq] at hnp
      exact hnp (hpk ▸ hk)
    show (_ ++ new).lookup k = new.lookup k
    exact lookup_append_of_none hnone
  · rw [if_neg hk]
    have hfil := lookup_filter_keys old (keysOf new) k hk
    rcases hol : (old.filter (fun p => decide (p.1 ∉ keysOf new))).lookup k
      with _ | v
    · show (_ ++ new).lookup k = old.lookup k
      rw [lookup_append_of_none hol, lookup_eq_none_of_not_mem hk, ← hfil, hol]
    · show (_ ++ new).lookup k = old.lookup k
      rw [lookup_append_of_some hol, ← hfil, hol]

/-- Claim C3 counterexample: a stale snapshot that loads as the empty map
together with an empty fresh fetch makes get_or_fetch_price_data return
the (empty) merge without persisting any new snapshot, because
save_price_data refuses an empty map; the claim as stated requires the
merged result to be persisted whenever a snapshot exists and is stale. -/
theorem C3_counterexample :
    (get_or_fetch_price_data (some ([], 2)) []).persisted = none ∧
    (get_or_fetch_price_data (some ([], 2)) []).result = dictMerge [] [] ∧
    dictMerge [] [] = [] := by decide

/-- Claim C3, amended: with a persisted snapshot present, an age of at
most one day returns the loaded snapshot unchanged with no fresh fetch
and no persist; an age of more than one day fetches, returns the merge in
which fresh rows overwrite existing rows sharing a date and all other
existing rows are retained, and persists the merged result as a new
snapshot whenever the merge is non-empty (an empty merge is not
persisted). -/
theorem C3_cache_staleness (existing fresh : PriceMap) (age : Nat) :
    (age ≤ 1 →
      get_or_fetch_price_data (some (existing, age)) fresh =
        ⟨existing, false, none⟩) ∧
    (age > 1 →
      (get_or_fetch_price_data (some (existing, age)) fresh).result =
        dictMerge existing fresh ∧
      (get_or_fetch_price_data (some (existing, age)) fresh).didFetch = true ∧
      (get_or_fetch_price_data (some (existing, age)) fresh).persisted =
        (if (dictMerge existing fresh).isEmpty then none
         else some (sortRows (dictMerge existing fresh))) ∧
      ∀ k, (dictMerge existing fresh).lookup k =
        if k ∈ keysOf fresh then fresh.lookup k else existing.lookup k) := by
  constructor
  · intro hage
    simp [get_or_fetch_price_data, Nat.not_lt.2 hage]
  · intro hage
    refine ⟨?_, ?_, ?_, fun k => lookup_dictMerge existing fresh k⟩ <;>
      simp [get_or_fetch_price_data, hage, save_price_data]

/-- Witness for C3, including the merge example from the documentation: a
fresh snapshot (age 0) is returned unchanged, and a stale snapshot (age 2
days) holding date 1 at price 100 merged with a fetch holding date 1 at
105 and date 2 at 107 yields 105 for date 1. -/
theorem C3_cache_staleness_witness :
    get_or_fetch_price_data (some ([(1, (100 : Rat))], 0)) [(1, 105), (2, 107)] =
      ⟨[(1, 100)], false, none⟩ ∧
    (get_or_fetch_price_data (some ([(1, (100 : Rat))], 2))
      [(1, 105), (2, 107)]).result = dictMerge [(1, 100)] [(1, 105), (2, 107)] ∧
    (dictMerge [(1, (100 : Rat))] [(1, 105), (2, 107)]).lookup 1 = some 105 ∧
    (dictMerge [(1, (100 : Rat))] [(1, 105), (2, 107)]).lookup 2 = some 107 := by
  refine ⟨(C3_cache_staleness [(1, (100 : Rat))] [(1, 105), (2, 107)] 0).1
      (by decide),
    ((C3_cache_staleness [(1, (100 : Rat))] [(1, 105), (2, 107)] 2).2
      (by decide)).1, ?_, ?_⟩
  · have h := ((C3_cache_staleness [(1, (100 : Rat))] [(1, 105), (2, 107)] 2).2
      (by decide)).2.2.2 1
    rw [h]
    decide
  · have h := ((C3_cache_staleness [(1, (100 : Rat))] [(1, 105), (2, 107)] 2).2
      (by decide)).2.2.2 2
    rw [h]
    decide

/-- Claim C6 counterexample: when the historical feed returns an empty
series and the one-day feed behind the current price returns a Close of
zero, fetch_historical_tao_prices returns the empty map instead of the
single-entry map claimed (the Python truthiness test on the fallback
price rejects zero). -/
theorem C6_counterexample :
    fetch_historical_tao_prices (.rows []) (.closes [0]) 5 = [] ∧
    fetch_tao_price_data (.closes [0]) = 0 ∧
    ([] : PriceMap) ≠ [(5, (0 : Rat))] := by decide

/-- Claim C6, amended: the historical-price query never raises (it is a
total function of the feed outcome): a non-empty series is returned as
the date-to-price mapping; an empty series or a total feed failure falls
back to the single-entry mapping of today to current_price() when that
fallback price is non-zero, and to the empty mapping when it is zero; the
worst case is the empty mapping; and current_price returns the documented
500 fallback constant on a feed error or an empty one-day history. -/
theorem C6_price_fallbacks (hist : FeedHist) (oneDay : FeedOneDay)
    (today : Nat) :
    (∀ rs, rs ≠ [] → hist = .rows rs →
      fetch_historical_tao_prices hist oneDay today = rs) ∧
    ((hist = .rows [] ∨ hist = .error) →
      (fetch_tao_price_data oneDay ≠ 0 →
        fetch_historical_tao_prices hist oneDay today =
          [(today, fetch_tao_price_data oneDay)]) ∧
      (fetch_tao_price_data oneDay = 0 →
        fetch_historical_tao_prices hist oneDay today = [])) ∧
    fetch_tao_price_data .error = 500 ∧
    fetch_tao_price_data (.closes []) = 500 := by
  refine ⟨?_, ?_, rfl, rfl⟩
  · rintro rs hne rfl
    rcases rs with _ | ⟨r, rs⟩
    · exact absurd rfl hne
    · simp [fetch_historical_tao_prices]
  · rintro (rfl | rfl)
    · constructor <;> intro hcp <;>
        simp [fetch_historical_tao_prices, hcp]
    · constructor <;> intro hcp <;>
        simp [fetch_historical_tao_prices, hcp]

/-- Witness for C6: a non-empty history is passed through; a failed
history with a non-zero current price of 11 yields the single-entry map;
a failed history with a zero current price yields the empty map. -/
theorem C6_price_fallbacks_witness :
    fetch_historical_tao_prices (.rows [(3, (7 : Rat))]) .error 9 = [(3, 7)] ∧
    fetch_historical_tao_prices .error (.closes [11]) 9 = [(9, (11 : Rat))] ∧
    fetch_historical_tao_prices .error (.closes [0]) 9 = [] := by
  refine ⟨(C6_price_fallbacks (.rows [(3, (7 : Rat))]) .error 9).1
      [(3, 7)] (by simp) rfl, ?_, ?_⟩
  · exact ((C6_price_fallbacks .error (.closes [11]) 9).2.1 (Or.inr rfl)).1
      (by decide)
  · exact ((C6_price_fallbacks .error (.closes [0]) 9).2.1 (Or.inr rfl)).2
      (by decide)

/-- Claim C7: USD fields are all-or-none.  In every observation produced
with a price map supplied, either all four USD fields are present or none
is; they are present exactly when the nearest-date rule resolves a price
for the record's UTC calendar date, in which case they carry the resolved
price and the three products of the converted supplies with it; and every
record is emitted (normalization never drops a record), each output row
being the image of an input record. -/
theorem C7_usd_all_or_none (m : PriceMap) (e : RawRecord)
    (raw : List RawRecord) :
    (((processEntry (some m) e).tao_price_usd.isSome ∧
      (processEntry (some m) e).total_market_cap_usd.isSome ∧
      (processEntry (some m) e).staked_market_cap_usd.isSome ∧
      (processEntry (some m) e).circulating_market_cap_usd.isSome) ∨
     ((processEntry (some m) e).tao_price_usd = none ∧
      (processEntry (some m) e).total_market_cap_usd = none ∧
      (processEntry (some m) e).staked_market_cap_usd = none ∧
      (processEntry (some m) e).circulating_market_cap_usd = none)) ∧
    ((processEntry (some m) e).tao_price_usd.isSome ↔
      (get_price_for_date m (tsDate e.timestamp)).isSome) ∧
    (∀ p, get_price_for_date m (tsDate e.timestamp) = some p →
      (processEntry (some m) e).tao_price_usd = some p ∧
      (processEntry (some m) e).total_market_cap_usd =
        some ((processEntry (some m) e).issued_tao * p) ∧
      (processEntry (some m) e).staked_market_cap_usd =
        some ((processEntry (some m) e).staked_tao * p) ∧
      (processEntry (some m) e).circulating_market_cap_usd =
        some ((processEntry (some m) e).circulating_tao * p)) ∧
    (process_data (some m) raw).length = raw.length ∧
    (∀ o ∈ process_data (some m) raw,
      ∃ e2 ∈ raw, o = processEntry (some m) e2) := by
  refine ⟨?_, ?_, ?_, ?_, ?_⟩
  · rcases hp : get_price_for_date m (tsDate e.timestamp) with _ | p
    · right
      simp [processEntry, hp]
    · left
      simp [processEntry, hp]
  · rcases hp : get_price_for_date m (tsDate e.timestamp) with _ | p <;>
      simp [processEntry, hp]
  · intro p hp
    simp [processEntry, hp]
  · simp [process_data]
  · intro o ho
    rcases List.mem_map.1 ((List.mem_insertionSort _).1 ho) with ⟨e2, he2, heq⟩
    exact ⟨e2, he2, heq.symm⟩

/-- Witness for C7 at a record whose date resolves to price 50: the price
field and the total market cap product are attached. -/
theorem C7_usd_all_or_none_witness :
    (processEntry (some [(0, (50 : Rat))]) recEarly).tao_price_usd = some 50 ∧
    (processEntry (some [(0, (50 : Rat))]) recEarly).total_market_cap_usd =
      some ((processEntry (some [(0, (50 : Rat))]) recEarly).issued_tao * 50) := by
  have h := (C7_usd_all_or_none [(0, (50 : Rat))] recEarly []).2.2.1 50 (by decide)
  exact ⟨h.1, h.2.1⟩

/-- Claim C8: for every record with positive issued amount and staked not
exceeding issued, the emitted observation has staked_percentage between 0
and 100, circulating plus staked equals issued exactly in the rational
model (the floating-point tolerance of the claim), and staked_percentage
is computed from the raw integer units as 100 times staked over issued. -/
theorem C8_supply_invariants (pd : Option PriceMap) (e : RawRecord)
    (hpos : 0 < e.issued) (hle : e.staked ≤ e.issued) :
    0 ≤ (processEntry pd e).staked_percentage ∧
    (processEntry pd e).staked_percentage ≤ 100 ∧
    (processEntry pd e).circulating_tao + (processEntry pd e).staked_tao =
      (processEntry pd e).issued_tao ∧
    (processEntry pd e).staked_percentage =
      (e.staked : Rat) / (e.issued : Rat) * 100 := by
  have hi : (0 : Rat) < (e.issued : Rat) := by exact_mod_cast hpos
  have hs0 : (0 : Rat) ≤ (e.staked : Rat) := Nat.cast_nonneg _
  have hsle : ((e.staked : Rat)) ≤ (e.issued : Rat) := by exact_mod_cast hle
  have hsp : (processEntry pd e).staked_percentage =
      (e.staked : Rat) / (e.issued : Rat) * 100 := by
    simp [processEntry, hpos]
  have h1 : (processEntry pd e).circulating_tao =
      (e.issued : Rat) / 10 ^ 9 - (e.staked : Rat) / 10 ^ 9 := by
    simp [processEntry]
  have h2 : (processEntry pd e).staked_tao = (e.staked : Rat) / 10 ^ 9 := by
    simp [processEntry]
  have h3 : (processEntry pd e).issued_tao = (e.issued : Rat) / 10 ^ 9 := by
    simp [processEntry]
  refine ⟨?_, ?_, ?_, hsp⟩
  · rw [hsp]
    exact mul_nonneg (div_nonneg hs0 hi.le) (by norm_num)
  · rw [hsp]
    have hdiv : (e.staked : Rat) / (e.issued : Rat) ≤ 1 := (div_le_one hi).2 hsle
    calc (e.staked : Rat) / (e.issued : Rat) * 100 ≤ 1 * 100 :=
        mul_le_mul_of_nonneg_right hdiv (by norm_num)
      _ = 100 := by norm_num
  · rw [h1, h2, h3]
    ring

/-- Witness for C8 at a concrete record with issued 10 and staked 5. -/
theorem C8_supply_invariants_witness :
    0 ≤ (processEntry none recEarly).staked_percentage ∧
    (processEntry none recEarly).staked_percentage ≤ 100 ∧
    (processEntry none recEarly).circulating_tao +
      (processEntry none recEarly).staked_tao =
      (processEntry none recEarly).issued_tao := by
  have h := C8_supply_invariants none recEarly (by decide) (by decide)
  exact ⟨h.1, h.2.1, h.2.2.1⟩

/-- Claim C9 counterexample: feeding the same record twice yields two
observations with equal timestamps, so the output is not sorted strictly
ascending by timestamp. -/
theorem C9_counterexample :
    ¬ List.Sorted (fun a b => a < b)
      ((process_data none [dupRecord, dupRecord]).map (fun o => o.timestamp)) := by
  intro h
  have hts : (process_data none [dupRecord, dupRecord]).map
      (fun o => o.timestamp) = [100, 100] := by decide
  rw [hts] at h
  exact absurd (List.rel_of_sorted_cons h 100 (by simp)) (lt_irrefl 100)

theorem sorted_lt_of_sorted_le_nodup {l : List Nat}
    (hs : List.Sorted (fun a b => a ≤ b) l) (hn : l.Nodup) :
    List.Sorted (fun a b => a < b) l := by
  induction l with
  | nil => exact List.sorted_nil
  | cons a tl ih =>
    rw [List.sorted_cons] at hs ⊢
    rw [List.nodup_cons] at hn
    exact ⟨fun b hb => lt_of_le_of_ne (hs.1 b hb) fun heq => hn.1 (heq ▸ hb),
      ih hs.2 hn.2⟩

/-- Claim C9, amended: for every input record list, in whatever order the
records arrive, the output of normalization is sorted ascending
(non-decreasing) by timestamp, and is a permutation of the per-record
images; it is sorted strictly ascending whenever the input timestamps are
pairwise distinct, but records sharing a timestamp make strictness
fail. -/
theorem C9_output_sorted (pd : Option PriceMap) (raw : List RawRecord) :
    List.Sorted (fun a b => a ≤ b)
      ((process_data pd raw).map (fun o => o.timestamp)) ∧
    (process_data pd raw).Perm (raw.map (processEntry pd)) ∧
    ((raw.map (fun e => e.timestamp)).Nodup →
      List.Sorted (fun a b => a < b)
        ((process_data pd raw).map (fun o => o.timestamp))) := by
  have hsorted : List.Sorted (fun a b : Observation => a.timestamp ≤ b.timestamp)
      (process_data pd raw) := List.sorted_insertionSort _ _
  have hsorted2 : List.Sorted (fun a b => a ≤ b)
      ((process_data pd raw).map (fun o => o.timestamp)) := by
    rw [List.Sorted, List.pairwise_map]
    exact hsorted
  have hperm : (process_data pd raw).Perm (raw.map (processEntry pd)) :=
    List.perm_insertionSort _ _
  refine ⟨hsorted2, hperm, ?_⟩
  intro hnd
  apply sorted_lt_of_sorted_le_nodup hsorted2
  have h1 := hperm.map (fun o => o.timestamp)
  rw [List.map_map] at h1
  have hfun : ((fun o : Observation => o.timestamp) ∘ processEntry pd) =
      (fun e : RawRecord => e.timestamp) := rfl
  rw [hfun] at h1
  exact h1.nodup_iff.2 hnd

/-- Witness for C9: two records with distinct timestamps arriving in
reverse order come out sorted, indeed strictly. -/
theorem C9_output_sorted_witness :
    List.Sorted (fun a b => a ≤ b)
      ((process_data none [recLate, recEarly]).map (fun o => o.timestamp)) ∧
    List.Sorted (fun a b => a < b)
      ((process_data none [recLate, recEarly]).map (fun o => o.timestamp)) := by
  have h := C9_output_sorted none [recLate, recEarly]
  exact ⟨h.1, h.2.2 (by decide)⟩
